import Mathlib

/-!
Verification of the fan-control core of `pwm-fan-control`.

The repository contains two near-identical scripts,
`src/usr/local/bin/pwm-fan-control.py` and `src/usr/local/sbin/pwm-fan-control.py`.
Their decision logic (`PWMFanControl.monitor`, `_duty_cycles`,
`_cpu_temperatures`, `_disk_temperatures`, and the `max`-of-readings tail of
`_cpu_temperature` / `_disk_temperature`) is byte-for-byte the same, so one
embedding covers both.

Machine integers: Python integers are unbounded, so `Int` models them exactly.
`int(x / 100)` on a non-negative-exponent float quotient of integers is
modelled as exact truncating division `Int.tdiv` (Python `int()` truncates
toward zero; the float quotient is exact for the representable range used by
this program).
-/

namespace PWMFan

/-- One entry of the `fan_speed` list of the YAML config: a dict with keys
`cpu` (CPU temperature threshold, °C), `disk` (disk temperature threshold,
°C) and `speed` (duty percent). -/
structure FanStep where
  cpu : Int
  disk : Int
  speed : Int
deriving DecidableEq

/-- `PWMFanControl._duty_cycles`: for each `fan_speed` item append
`int(pwm_period * item["speed"] / 100)`. -/
def dutyCycles (pwm_period : Int) (fan_speed : List FanStep) : List Int :=
  fan_speed.map fun item => (pwm_period * item.speed).tdiv 100

/-- `PWMFanControl._cpu_temperatures`: for each `fan_speed` item append
`item["cpu"]`. -/
def cpuTemperatures (fan_speed : List FanStep) : List Int :=
  fan_speed.map fun item => item.cpu

/-- `PWMFanControl._disk_temperatures`: for each `fan_speed` item append
`item["disk"]`. -/
def diskTemperatures (fan_speed : List FanStep) : List Int :=
  fan_speed.map fun item => item.disk

/-- `monitor`, line `hysteresis = 2 if self._pwmchip_duty_cycle >= self._duty_cycles[index] else 0`.
`prev` is the duty cycle read back from sysfs, `dutyEntry` is `duty_cycles[index]`. -/
def hysteresis (prev dutyEntry : Int) : Int :=
  if prev ≥ dutyEntry then 2 else 0

/-- `monitor`, the `if` guard of the scan:
`cpu_temp > cpu_thresholds[index] - hysteresis or disk_temp > disk_thresholds[index] - hysteresis`. -/
def stepMatches (cpu disk prev cpuTh diskTh dutyEntry : Int) : Bool :=
  decide (cpu > cpuTh - hysteresis prev dutyEntry)
    || decide (disk > diskTh - hysteresis prev dutyEntry)

/-- The guard of the scan applied to one `(step, duty_cycles[index])` row. -/
def rowMatches (cpu disk prev : Int) (r : FanStep × Int) : Bool :=
  stepMatches cpu disk prev r.1.cpu r.1.disk r.2

/-- The `for index in range(len(self._duty_cycles))` scan of `monitor`:
`duty` starts at 0; at the first index whose guard holds, `duty` is set to
`duty_cycles[0]` if the fan was stopped (`prev == 0`) else `duty_cycles[index]`,
and the loop `break`s.  `duty0` carries `duty_cycles[0]`. -/
def scanAux (cpu disk prev duty0 : Int) : List (FanStep × Int) → Int
  | [] => 0
  | r :: rest =>
      if rowMatches cpu disk prev r then
        (if prev = 0 then duty0 else r.2)
      else
        scanAux cpu disk prev duty0 rest

/-- The duty-cycle decision of one `monitor` iteration (the spec's
`decide(cpu_temp, disk_temp, previous_duty_ns, steps, duty_table)`): scan the
steps paired with their duty-table entries in order and return the chosen
duty, `0` when no guard holds. -/
def decideDuty (cpu disk prev : Int) (steps : List FanStep) (dutyTable : List Int) : Int :=
  scanAux cpu disk prev (dutyTable.headD 0) (steps.zip dutyTable)

/-- The guard of the scan at index `i`, read through `getD` as the source
reads `self._cpu_temperatures[index]`, `self._disk_temperatures[index]`,
`self._duty_cycles[index]`. -/
def condAt (cpu disk prev : Int) (steps : List FanStep) (dutyTable : List Int) (i : Nat) : Bool :=
  stepMatches cpu disk prev
    (steps.getD i ⟨0, 0, 0⟩).cpu
    (steps.getD i ⟨0, 0, 0⟩).disk
    (dutyTable.getD i 0)

/-- The index at which the scan of `monitor` hits `break`, `none` when the
loop runs to completion without a match. -/
def selectedIndex (cpu disk prev : Int) : List (FanStep × Int) → Option Nat
  | [] => none
  | r :: rest =>
      if rowMatches cpu disk prev r then some 0
      else (selectedIndex cpu disk prev rest).map (· + 1)

/-- The guard of the scan at index `0`, `false` when either list is empty
(the loop body never runs). -/
def headMatches (cpu disk prev : Int) (steps : List FanStep) (dutyTable : List Int) : Bool :=
  match steps, dutyTable with
  | s :: _, dt :: _ => stepMatches cpu disk prev s.cpu s.disk dt
  | _, _ => false

/-- `normal` / `inversed`, the two tokens of the sysfs `polarity` attribute. -/
inductive Polarity where
  | normal
  | inversed
deriving DecidableEq

/-- The sysfs-backed PWM channel state behind the `_pwmchip_*` properties. -/
structure PwmState where
  period : Int
  duty_cycle : Int
  enabled : Bool
  polarity : Polarity
deriving DecidableEq

/-- One iteration of the `while True` loop of `monitor` (between two sleeps):
read the duty cycle back from sysfs, run the step scan, then execute
`self._pwmchip_duty_cycle = duty`, whose property setter writes
unconditionally.  The second component records the values written to the
`duty_cycle` attribute during the iteration. -/
def monitorStep (pwm_period : Int) (fan_speed : List FanStep) (cpuT diskT : Int)
    (s : PwmState) : PwmState × List Int :=
  let duty := decideDuty cpuT diskT s.duty_cycle fan_speed (dutyCycles pwm_period fan_speed)
  ({ s with duty_cycle := duty }, [duty])

/-- Several iterations of `monitor`, one per `(cpu_temp, disk_temp)` sample;
returns the final PWM state and every duty value written to the actuator. -/
def monitorRun (pwm_period : Int) (fan_speed : List FanStep) :
    List (Int × Int) → PwmState → PwmState × List Int
  | [], s => (s, [])
  | t :: rest, s =>
      let step := monitorStep pwm_period fan_speed t.1 t.2 s
      let next := monitorRun pwm_period fan_speed rest step.1
      (next.1, step.2 ++ next.2)

/-- Tail of `PWMFanControl._cpu_temperature` (both scripts), as a function of
the collected integer readings: `return cpu_temperatures[0] if
len(cpu_temperatures) == 1 else max(*cpu_temperatures)` when the list is
non-empty, else `return 0`.  Python `max(*xs)` on two or more arguments is the
left fold of the binary max. -/
def cpuTemperature (readings : List Int) : Int :=
  match readings with
  | [] => 0
  | [t] => t
  | t :: rest => rest.foldl max t

/-- Tail of `PWMFanControl._disk_temperature` (both scripts), identical in
shape to the CPU variant. -/
def diskTemperature (readings : List Int) : Int :=
  match readings with
  | [] => 0
  | [t] => t
  | t :: rest => rest.foldl max t

/-! ## Helper lemmas -/

theorem getD_zip (S : List PWMFan.FanStep) (DT : List Int) (i : Nat)
    (h1 : i < S.length) (h2 : i < DT.length) :
    (S.zip DT).getD i (⟨0, 0, 0⟩, 0) = (S.getD i ⟨0, 0, 0⟩, DT.getD i 0) := by
  induction S generalizing DT i with
  | nil => simp at h1
  | cons s S ih =>
      cases DT with
      | nil => simp at h2
      | cons dt DT =>
          cases i with
          | zero => simp [List.getD]
          | succ n =>
              simp only [List.zip_cons_cons, List.getD_cons_succ]
              exact ih DT n (by simpa using h1) (by simpa using h2)

theorem rowMatches_getD (c d p : Int) (S : List PWMFan.FanStep) (DT : List Int) (i : Nat)
    (h1 : i < S.length) (h2 : i < DT.length) :
    PWMFan.rowMatches c d p ((S.zip DT).getD i (⟨0, 0, 0⟩, 0)) =
      PWMFan.condAt c d p S DT i := by
  rw [getD_zip S DT i h1 h2]
  rfl

theorem scanAux_eq_zero (c d p duty0 : Int) (rows : List (PWMFan.FanStep × Int))
    (h : ∀ r ∈ rows, PWMFan.rowMatches c d p r = false) :
    PWMFan.scanAux c d p duty0 rows = 0 := by
  induction rows with
  | nil => rfl
  | cons r rest ih =>
      have hr := h r (List.mem_cons_self r rest)
      simp only [PWMFan.scanAux, hr, Bool.false_eq_true, if_false]
      exact ih fun r' hr' => h r' (List.mem_cons_of_mem r hr')

theorem scanAux_first (c d p duty0 : Int) (rows : List (PWMFan.FanStep × Int)) (i : Nat)
    (hi : i < rows.length)
    (h1 : PWMFan.rowMatches c d p (rows.getD i (⟨0, 0, 0⟩, 0)) = true)
    (h2 : ∀ j < i, PWMFan.rowMatches c d p (rows.getD j (⟨0, 0, 0⟩, 0)) = false) :
    PWMFan.scanAux c d p duty0 rows =
      if p = 0 then duty0 else (rows.getD i (⟨0, 0, 0⟩, 0)).2 := by
  induction rows generalizing i with
  | nil => simp at hi
  | cons r rest ih =>
      cases i with
      | zero =>
          simp only [List.getD_cons_zero] at h1
          simp [PWMFan.scanAux, h1]
      | succ n =>
          have h0 := h2 0 (Nat.succ_pos n)
          simp only [List.getD_cons_zero] at h0
          simp only [List.getD_cons_succ] at h1 ⊢
          simp only [PWMFan.scanAux, h0, Bool.false_eq_true, if_false]
          exact ih n (by simpa using hi) h1 fun j hj => by
            have := h2 (j + 1) (by omega)
            simpa using this

theorem scanAux_of_exists (c d duty0 : Int) (rows : List (PWMFan.FanStep × Int))
    (h : ∃ r ∈ rows, PWMFan.rowMatches c d 0 r = true) :
    PWMFan.scanAux c d 0 duty0 rows = duty0 := by
  induction rows with
  | nil => simp at h
  | cons r rest ih =>
      by_cases hr : PWMFan.rowMatches c d 0 r = true
      · simp [PWMFan.scanAux, hr]
      · simp only [PWMFan.scanAux, hr, Bool.false_eq_true, if_false]
        rcases h with ⟨r', hr', hm⟩
        rcases List.mem_cons.mp hr' with rfl | hmem
        · exact absurd hm hr
        · exact ih ⟨r', hmem, hm⟩

theorem scanAux_cases (c d p duty0 : Int) (rows : List (PWMFan.FanStep × Int)) :
    PWMFan.scanAux c d p duty0 rows = 0 ∨ PWMFan.scanAux c d p duty0 rows = duty0 ∨
      ∃ r ∈ rows, PWMFan.scanAux c d p duty0 rows = r.2 := by
  induction rows with
  | nil => exact Or.inl rfl
  | cons r rest ih =>
      by_cases hr : PWMFan.rowMatches c d p r = true
      · by_cases hp : p = 0
        · subst hp
          refine Or.inr (Or.inl ?_)
          simp [PWMFan.scanAux, hr]
        · refine Or.inr (Or.inr ⟨r, List.mem_cons_self r rest, ?_⟩)
          simp [PWMFan.scanAux, hr, hp]
      · simp only [PWMFan.scanAux, hr, Bool.false_eq_true, if_false]
        rcases ih with h | h | ⟨r', hr', h⟩
        · exact Or.inl h
        · exact Or.inr (Or.inl h)
        · exact Or.inr (Or.inr ⟨r', List.mem_cons_of_mem r hr', h⟩)

theorem stepMatches_mono_row (c d p cth cth' dth dth' dt dt' : Int)
    (h1 : cth ≤ cth') (h2 : dth ≤ dth') (h3 : dt ≤ dt')
    (h : PWMFan.stepMatches c d p cth' dth' dt' = true) :
    PWMFan.stepMatches c d p cth dth dt = true := by
  simp only [PWMFan.stepMatches, PWMFan.hysteresis, Bool.or_eq_true, decide_eq_true_eq] at h ⊢
  split_ifs at h ⊢ <;> omega

theorem stepMatches_mono_hyst (c d p p' cth dth dt : Int)
    (hh : PWMFan.hysteresis p dt ≤ PWMFan.hysteresis p' dt)
    (h : PWMFan.stepMatches c d p cth dth dt = true) :
    PWMFan.stepMatches c d p' cth dth dt = true := by
  simp only [PWMFan.stepMatches, PWMFan.hysteresis, Bool.or_eq_true, decide_eq_true_eq] at h hh ⊢
  split_ifs at h hh ⊢ <;> omega

theorem hysteresis_le_two (p dt : Int) : PWMFan.hysteresis p dt ≤ 2 := by
  simp only [PWMFan.hysteresis]
  split <;> omega

theorem hysteresis_self (dt : Int) : PWMFan.hysteresis dt dt = 2 := by
  simp [PWMFan.hysteresis]

theorem decideDuty_of_sorted (c d p : Int) (S : List PWMFan.FanStep) (DT : List Int)
    (hc : (PWMFan.cpuTemperatures S).Sorted (· ≤ ·))
    (hd : (PWMFan.diskTemperatures S).Sorted (· ≤ ·))
    (hduty : DT.Sorted (· ≤ ·)) :
    PWMFan.decideDuty c d p S DT =
      if PWMFan.headMatches c d p S DT then DT.headD 0 else 0 := by
  cases S with
  | nil => simp [PWMFan.decideDuty, PWMFan.scanAux, PWMFan.headMatches]
  | cons s S' =>
      cases DT with
      | nil => simp [PWMFan.decideDuty, PWMFan.scanAux, PWMFan.headMatches]
      | cons dt DT' =>
          have hcpu : ∀ a ∈ S', s.cpu ≤ a.cpu := by
            have hc' : List.Pairwise (fun a b : PWMFan.FanStep => a.cpu ≤ b.cpu) (s :: S') :=
              List.pairwise_map.mp hc
            exact (List.pairwise_cons.mp hc').1
          have hdisk : ∀ a ∈ S', s.disk ≤ a.disk := by
            have hd' : List.Pairwise (fun a b : PWMFan.FanStep => a.disk ≤ b.disk) (s :: S') :=
              List.pairwise_map.mp hd
            exact (List.pairwise_cons.mp hd').1
          have hdt : ∀ b ∈ DT', dt ≤ b := (List.sorted_cons.mp hduty).1
          by_cases hm : PWMFan.stepMatches c d p s.cpu s.disk dt = true
          · simp [PWMFan.decideDuty, PWMFan.scanAux, PWMFan.rowMatches, PWMFan.headMatches, hm]
          · have hm' : PWMFan.stepMatches c d p s.cpu s.disk dt = false := by
              simpa using hm
            have hall : ∀ r ∈ S'.zip DT', PWMFan.rowMatches c d p r = false := by
              intro r hr
              rcases r with ⟨a, b⟩
              rcases List.of_mem_zip hr with ⟨ha, hb⟩
              by_contra hcon
              simp only [Bool.not_eq_false] at hcon
              exact hm (stepMatches_mono_row c d p s.cpu a.cpu s.disk a.disk dt b
                (hcpu a ha) (hdisk a ha) (hdt b hb) hcon)
            have hz : PWMFan.scanAux c d p dt (S'.zip DT') = 0 :=
              scanAux_eq_zero c d p dt _ hall
            have hL : PWMFan.decideDuty c d p (s :: S') (dt :: DT') = 0 := by
              have hrm : PWMFan.rowMatches c d p (s, dt) = false := hm'
              simp only [PWMFan.decideDuty, List.zip_cons_cons, PWMFan.scanAux, hrm,
                Bool.false_eq_true, if_false]
              exact hz
            rw [hL]
            simp [PWMFan.headMatches, hm']

/-- C5 (amended): feedback idempotence holds for the tables the data model
assumes — cpu thresholds, disk thresholds and the duty table each
non-decreasing in index, first duty entry non-negative: feeding the output
back as `previous_duty` with unchanged temperatures does not change the
output.  (For arbitrary tables the claim is false, see the
counterexample.) -/
theorem decideDuty_idem_of_sorted (c d p : Int) (S : List PWMFan.FanStep) (DT : List Int)
    (hc : (PWMFan.cpuTemperatures S).Sorted (· ≤ ·))
    (hd : (PWMFan.diskTemperatures S).Sorted (· ≤ ·))
    (hduty : DT.Sorted (· ≤ ·))
    (h0 : 0 ≤ DT.headD 0) :
    PWMFan.decideDuty c d (PWMFan.decideDuty c d p S DT) S DT =
      PWMFan.decideDuty c d p S DT := by
  rw [decideDuty_of_sorted c d p S DT hc hd hduty]
  by_cases hm : PWMFan.headMatches c d p S DT = true
  · simp only [hm, if_true]
    rw [decideDuty_of_sorted c d (DT.headD 0) S DT hc hd hduty]
    cases S with
    | nil => simp [PWMFan.headMatches] at hm
    | cons s S' =>
        cases DT with
        | nil => simp [PWMFan.headMatches] at hm
        | cons dt DT' =>
            have hm0 : PWMFan.stepMatches c d p s.cpu s.disk dt = true := by
              simpa [PWMFan.headMatches] using hm
            have hh : PWMFan.hysteresis p dt ≤ PWMFan.hysteresis dt dt := by
              rw [hysteresis_self]
              exact hysteresis_le_two p dt
            have hmk : PWMFan.headMatches c d dt (s :: S') (dt :: DT') = true := by
              simpa [PWMFan.headMatches] using
                stepMatches_mono_hyst c d p dt s.cpu s.disk dt hh hm0
            simp [hmk]
  · simp only [hm, if_false, Bool.false_eq_true]
    rw [decideDuty_of_sorted c d 0 S DT hc hd hduty]
    by_cases hm0 : PWMFan.headMatches c d 0 S DT = true
    · cases S with
      | nil => simp [PWMFan.headMatches] at hm0
      | cons s S' =>
          cases DT with
          | nil => simp [PWMFan.headMatches] at hm0
          | cons dt DT' =>
              have hms : PWMFan.stepMatches c d 0 s.cpu s.disk dt = true := by
                simpa [PWMFan.headMatches] using hm0
              have hdt0 : dt = 0 := by
                by_contra hne
                have hgt : 0 < dt := by
                  have : (0 : Int) ≤ dt := by simpa using h0
                  omega
                have hh : PWMFan.hysteresis 0 dt ≤ PWMFan.hysteresis p dt := by
                  have h1 : PWMFan.hysteresis 0 dt = 0 := by
                    simp only [PWMFan.hysteresis]
                    split <;> omega
                  have h2 : (0 : Int) ≤ PWMFan.hysteresis p dt := by
                    simp only [PWMFan.hysteresis]
                    split <;> omega
                  omega
                exact hm (by
                  simpa [PWMFan.headMatches] using
                    stepMatches_mono_hyst c d 0 p s.cpu s.disk dt hh hms)
              simp [hm0, hdt0]
    · simp [hm0]

theorem headD_eq_getD_zero (l : List Int) (d : Int) : l.headD d = l.getD 0 d := by
  cases l <;> rfl

theorem getD_eq_getElem_of_lt {α : Type} (l : List α) (d : α) (i : Nat) (hi : i < l.length) :
    l.getD i d = l.get ⟨i, hi⟩ := by
  simp [List.getD_eq_getElem?_getD, List.getElem?_eq_getElem hi, List.get_eq_getElem]

theorem getD_mem_of_lt {α : Type} (l : List α) (d : α) (i : Nat) (hi : i < l.length) :
    l.getD i d ∈ l := by
  rw [getD_eq_getElem_of_lt l d i hi]
  exact List.mem_iff_getElem.mpr ⟨i, hi, rfl⟩

theorem decideDuty_of_no_match (c d p : Int) (S : List PWMFan.FanStep) (DT : List Int)
    (hlen : S.length = DT.length)
    (h : ∀ i < DT.length, PWMFan.condAt c d p S DT i = false) :
    PWMFan.decideDuty c d p S DT = 0 := by
  apply scanAux_eq_zero
  intro r hr
  obtain ⟨i, hi, hri⟩ := List.mem_iff_getElem.mp hr
  have hiS : i < S.length := by
    have := @List.length_zip _ _ S DT
    omega
  have hiD : i < DT.length := by
    have := @List.length_zip _ _ S DT
    omega
  have hg : (S.zip DT).getD i (⟨0, 0, 0⟩, 0) = r := by
    rw [getD_eq_getElem_of_lt _ _ i hi]
    exact hri
  rw [← hg, rowMatches_getD c d p S DT i hiS hiD]
  exact h i hiD

theorem decideDuty_at_first (c d p : Int) (S : List PWMFan.FanStep) (DT : List Int)
    (hlen : S.length = DT.length) (i : Nat) (hi : i < DT.length)
    (h1 : PWMFan.condAt c d p S DT i = true)
    (h2 : ∀ j < i, PWMFan.condAt c d p S DT j = false) :
    PWMFan.decideDuty c d p S DT = if p = 0 then DT.getD 0 0 else DT.getD i 0 := by
  have hiS : i < S.length := by omega
  have hzi : i < (S.zip DT).length := by
    rw [List.length_zip]
    omega
  have h1' : PWMFan.rowMatches c d p ((S.zip DT).getD i (⟨0, 0, 0⟩, 0)) = true := by
    rw [rowMatches_getD c d p S DT i hiS hi]
    exact h1
  have h2' : ∀ j < i, PWMFan.rowMatches c d p ((S.zip DT).getD j (⟨0, 0, 0⟩, 0)) = false := by
    intro j hj
    rw [rowMatches_getD c d p S DT j (by omega) (by omega)]
    exact h2 j hj
  have hs := scanAux_first c d p (DT.headD 0) (S.zip DT) i hzi h1' h2'
  have hz : ((S.zip DT).getD i (⟨0, 0, 0⟩, 0)).2 = DT.getD i 0 := by
    rw [getD_zip S DT i hiS hi]
  rw [PWMFan.decideDuty, hs, hz, headD_eq_getD_zero]

theorem decideDuty_of_match_zero (c d : Int) (S : List PWMFan.FanStep) (DT : List Int)
    (hlen : S.length = DT.length) (i : Nat) (hi : i < DT.length)
    (h : PWMFan.condAt c d 0 S DT i = true) :
    PWMFan.decideDuty c d 0 S DT = DT.getD 0 0 := by
  have hiS : i < S.length := by omega
  have hex : ∃ r ∈ S.zip DT, PWMFan.rowMatches c d 0 r = true := by
    refine ⟨(S.zip DT).getD i (⟨0, 0, 0⟩, 0), ?_, ?_⟩
    · exact getD_mem_of_lt _ _ i (by rw [List.length_zip]; omega)
    · rw [rowMatches_getD c d 0 S DT i hiS hi]
      exact h
  have := scanAux_of_exists c d (DT.headD 0) (S.zip DT) hex
  rw [PWMFan.decideDuty, this, headD_eq_getD_zero]

theorem selectedIndex_spec (c d p : Int) (rows : List (PWMFan.FanStep × Int)) :
    ∀ i, PWMFan.selectedIndex c d p rows = some i →
      i < rows.length ∧ PWMFan.rowMatches c d p (rows.getD i (⟨0, 0, 0⟩, 0)) = true := by
  induction rows with
  | nil =>
      intro i h
      simp [PWMFan.selectedIndex] at h
  | cons r rest ih =>
      intro i h
      by_cases hr : PWMFan.rowMatches c d p r = true
      · have hi0 : i = 0 := by
          simp [PWMFan.selectedIndex, hr] at h
          omega
        subst hi0
        exact ⟨Nat.succ_pos _, by simpa using hr⟩
      · simp only [PWMFan.selectedIndex, hr, Bool.false_eq_true, if_false] at h
        obtain ⟨j, hj, rfl⟩ := Option.map_eq_some'.mp h
        obtain ⟨hjl, hjm⟩ := ih j hj
        exact ⟨by simpa using Nat.succ_lt_succ hjl, by simpa using hjm⟩

theorem decideDuty_mem_or_zero (c d p : Int) (S : List PWMFan.FanStep) (DT : List Int) :
    PWMFan.decideDuty c d p S DT = 0 ∨ PWMFan.decideDuty c d p S DT ∈ DT := by
  rcases scanAux_cases c d p (DT.headD 0) (S.zip DT) with h | h | ⟨r, hr, h⟩
  · exact Or.inl h
  · cases DT with
    | nil =>
        left
        rw [PWMFan.decideDuty]
        simpa using h
    | cons dt DT' =>
        right
        have hd : PWMFan.decideDuty c d p S (dt :: DT') = dt := by
          simpa [PWMFan.decideDuty] using h
        rw [hd]
        exact List.mem_cons_self dt DT'
  · right
    rcases r with ⟨a, b⟩
    have hb : b ∈ DT := (List.of_mem_zip hr).2
    have hd : PWMFan.decideDuty c d p S DT = b := h
    rw [hd]
    exact hb

theorem foldl_max_mem (l : List Int) (a : Int) : l.foldl max a ∈ a :: l := by
  induction l generalizing a with
  | nil => simp
  | cons x xs ih =>
      simp only [List.foldl_cons]
      have h := ih (max a x)
      simp only [List.mem_cons] at h ⊢
      rcases h with h | h
      · rcases max_choice a x with h2 | h2
        · exact Or.inl (by rw [h, h2])
        · exact Or.inr (Or.inl (by rw [h, h2]))
      · exact Or.inr (Or.inr h)

theorem le_foldl_max (l : List Int) (a : Int) :
    a ≤ l.foldl max a ∧ ∀ y ∈ l, y ≤ l.foldl max a := by
  induction l generalizing a with
  | nil => simp
  | cons x xs ih =>
      obtain ⟨h1, h2⟩ := ih (max a x)
      simp only [List.foldl_cons]
      refine ⟨le_trans (le_max_left a x) h1, ?_⟩
      intro y hy
      rcases List.mem_cons.mp hy with rfl | hy
      · exact le_trans (le_max_right a y) h1
      · exact h2 y hy

theorem dutyCycles_getD (period : Int) (S : List PWMFan.FanStep) (i : Nat)
    (hi : i < S.length) :
    (PWMFan.dutyCycles period S).getD i 0 =
      (period * (S.getD i ⟨0, 0, 0⟩).speed).tdiv 100 := by
  induction S generalizing i with
  | nil => simp at hi
  | cons s S' ih =>
      cases i with
      | zero => rfl
      | succ n =>
          simp only [PWMFan.dutyCycles, List.map_cons, List.getD_cons_succ]
          exact ih n (by simpa using hi)

/-! ## Claim theorems -/

/-- C1: the scan of `monitor` examines indices in table order starting at 0,
each index `i` with guard `cpu_temp > cpu_threshold[i] - hysteresis_i ∨
disk_temp > disk_threshold[i] - hysteresis_i` where `hysteresis_i = 2` iff
`previous_duty ≥ duty_table[i]` (this guard is `condAt`); the first index
whose guard holds determines the result and stops the scan, and when no
index satisfies its guard — in particular for the empty table — the result
is 0. -/
theorem decideDuty_first_match_spec (c d p : Int) (S : List PWMFan.FanStep) (DT : List Int)
    (hlen : S.length = DT.length) :
    ((∀ i < DT.length, PWMFan.condAt c d p S DT i = false) →
        PWMFan.decideDuty c d p S DT = 0) ∧
    (∀ i < DT.length, PWMFan.condAt c d p S DT i = true →
        (∀ j < i, PWMFan.condAt c d p S DT j = false) →
        PWMFan.decideDuty c d p S DT = if p = 0 then DT.getD 0 0 else DT.getD i 0) := by
  constructor
  · exact decideDuty_of_no_match c d p S DT hlen
  · intro i hi h1 h2
    exact decideDuty_at_first c d p S DT hlen i hi h1 h2

theorem decideDuty_first_match_spec_witness :
    PWMFan.decideDuty 50 0 30000 [⟨40, 40, 0⟩, ⟨55, 45, 50⟩] [0, 20000] = 0 := by
  have h := (decideDuty_first_match_spec 50 0 30000 [⟨40, 40, 0⟩, ⟨55, 45, 50⟩] [0, 20000]
    rfl).2 0 (by decide) (by decide) (fun j hj => absurd hj (by omega))
  simpa using h

/-- C2: if `previous_duty = 0` and at least one step guard holds, the result
is `duty_table[0]` (never the matched intermediate step's own duty); if
`previous_duty ≠ 0`, the result is the first-matched step's own
`duty_table[index]`. -/
theorem decideDuty_kickstart_spec (c d p : Int) (S : List PWMFan.FanStep) (DT : List Int)
    (hlen : S.length = DT.length) :
    (p = 0 → (∃ i, i < DT.length ∧ PWMFan.condAt c d p S DT i = true) →
        PWMFan.decideDuty c d p S DT = DT.getD 0 0) ∧
    (p ≠ 0 → ∀ i, i < DT.length → PWMFan.condAt c d p S DT i = true →
        (∀ j < i, PWMFan.condAt c d p S DT j = false) →
        PWMFan.decideDuty c d p S DT = DT.getD i 0) := by
  constructor
  · rintro rfl ⟨i, hi, hcond⟩
    exact decideDuty_of_match_zero c d S DT hlen i hi hcond
  · intro hp i hi h1 h2
    rw [decideDuty_at_first c d p S DT hlen i hi h1 h2, if_neg hp]

theorem decideDuty_kickstart_spec_witness :
    PWMFan.decideDuty 50 0 0 [⟨70, 70, 100⟩, ⟨40, 40, 30⟩] [100, 30] = 100 :=
  (decideDuty_kickstart_spec 50 0 0 [⟨70, 70, 100⟩, ⟨40, 40, 30⟩] [100, 30] rfl).1
    rfl ⟨1, by decide, by decide⟩

/-- C3: the guard the scan evaluates for step `i` uses the threshold lowered
by exactly 2 degrees — for the cpu and the disk threshold alike — precisely
when `previous_duty ≥ duty_table[i]`, and the unmodified threshold
otherwise. -/
theorem condAt_hysteresis_spec (c d p : Int) (S : List PWMFan.FanStep) (DT : List Int)
    (i : Nat) :
    PWMFan.condAt c d p S DT i = true ↔
      (if p ≥ DT.getD i 0 then
        c > (S.getD i ⟨0, 0, 0⟩).cpu - 2 ∨ d > (S.getD i ⟨0, 0, 0⟩).disk - 2
      else
        c > (S.getD i ⟨0, 0, 0⟩).cpu ∨ d > (S.getD i ⟨0, 0, 0⟩).disk) := by
  simp only [PWMFan.condAt, PWMFan.stepMatches, PWMFan.hysteresis, Bool.or_eq_true,
    decide_eq_true_eq]
  split <;> simp

/-- C4: whenever the scan selects an index (the loop hits `break` there), the
hysteresis-adjusted guard of that very step holds — a step neither of whose
adjusted thresholds is exceeded is never selected. -/
theorem decideDuty_selected_sound (c d p : Int) (S : List PWMFan.FanStep) (DT : List Int)
    (_hc : (PWMFan.cpuTemperatures S).Sorted (· ≤ ·))
    (_hd : (PWMFan.diskTemperatures S).Sorted (· ≤ ·)) :
    ∀ i, PWMFan.selectedIndex c d p (S.zip DT) = some i →
      PWMFan.condAt c d p S DT i = true := by
  intro i hsel
  obtain ⟨hilen, hmatch⟩ := selectedIndex_spec c d p (S.zip DT) i hsel
  have hiS : i < S.length := by
    have := @List.length_zip _ _ S DT
    omega
  have hiD : i < DT.length := by
    have := @List.length_zip _ _ S DT
    omega
  rw [← rowMatches_getD c d p S DT i hiS hiD]
  exact hmatch

theorem decideDuty_selected_sound_witness :
    PWMFan.condAt 41 0 5 [⟨40, 40, 0⟩] [0] 0 = true :=
  decideDuty_selected_sound 41 0 5 [⟨40, 40, 0⟩] [0] (by decide) (by decide) 0 (by decide)

/-- C5 (counterexample): with the two-step table `[(100,100,5%), (40,40,0%)]`
at `pwm_period = 100` (duty table `[5, 0]`), temperatures `(41, 0)` and
`previous_duty = 3`, the decision yields 0 (step 1 matches, duty 0%), but
feeding 0 back yields the kick-start value `duty_table[0] = 5 ≠ 0` — so
`decide` is not a self-fixed-point for every step table. -/
theorem decideDuty_not_idempotent_cex :
    PWMFan.decideDuty 41 0
        (PWMFan.decideDuty 41 0 3 [⟨100, 100, 5⟩, ⟨40, 40, 0⟩]
          (PWMFan.dutyCycles 100 [⟨100, 100, 5⟩, ⟨40, 40, 0⟩]))
        [⟨100, 100, 5⟩, ⟨40, 40, 0⟩]
        (PWMFan.dutyCycles 100 [⟨100, 100, 5⟩, ⟨40, 40, 0⟩]) ≠
      PWMFan.decideDuty 41 0 3 [⟨100, 100, 5⟩, ⟨40, 40, 0⟩]
        (PWMFan.dutyCycles 100 [⟨100, 100, 5⟩, ⟨40, 40, 0⟩]) := by
  decide

theorem decideDuty_idem_of_sorted_witness :
    PWMFan.decideDuty 54 0
        (PWMFan.decideDuty 54 0 20000 [⟨40, 35, 0⟩, ⟨55, 45, 50⟩] [0, 20000])
        [⟨40, 35, 0⟩, ⟨55, 45, 50⟩] [0, 20000] =
      PWMFan.decideDuty 54 0 20000 [⟨40, 35, 0⟩, ⟨55, 45, 50⟩] [0, 20000] :=
  decideDuty_idem_of_sorted 54 0 20000 [⟨40, 35, 0⟩, ⟨55, 45, 50⟩] [0, 20000]
    (by decide) (by decide) (by decide) (by decide)

/-- C6 (counterexample): the spec's own scenario table
`[(40,35,0%), (55,45,50%), (70,55,100%)]` at `pwm_period = 40000` is sorted
ascending in cpu threshold, disk threshold and duty; with
`previous_duty = duty_table[1] = 20000`, `cpu = 55 - 1 = 54` and `disk = 0`
below every disk threshold minus hysteresis, the code returns 0 —
`duty_table[0]`, since step 0's hysteresis-lowered guard `54 > 38` fires
first — not `duty_table[1] = 20000` as the claim states. -/
theorem decideDuty_hysteresis_scenario_cex :
    (PWMFan.cpuTemperatures [⟨40, 35, 0⟩, ⟨55, 45, 50⟩, ⟨70, 55, 100⟩]).Sorted (· ≤ ·) ∧
    (PWMFan.diskTemperatures [⟨40, 35, 0⟩, ⟨55, 45, 50⟩, ⟨70, 55, 100⟩]).Sorted (· ≤ ·) ∧
    (PWMFan.dutyCycles 40000 [⟨40, 35, 0⟩, ⟨55, 45, 50⟩, ⟨70, 55, 100⟩]).Sorted (· ≤ ·) ∧
    (PWMFan.dutyCycles 40000 [⟨40, 35, 0⟩, ⟨55, 45, 50⟩, ⟨70, 55, 100⟩]).getD 1 0 = 20000 ∧
    (∀ t ∈ PWMFan.diskTemperatures [⟨40, 35, 0⟩, ⟨55, 45, 50⟩, ⟨70, 55, 100⟩],
      (0 : Int) < t - 2) ∧
    PWMFan.decideDuty 54 0
        ((PWMFan.dutyCycles 40000 [⟨40, 35, 0⟩, ⟨55, 45, 50⟩, ⟨70, 55, 100⟩]).getD 1 0)
        [⟨40, 35, 0⟩, ⟨55, 45, 50⟩, ⟨70, 55, 100⟩]
        (PWMFan.dutyCycles 40000 [⟨40, 35, 0⟩, ⟨55, 45, 50⟩, ⟨70, 55, 100⟩]) = 0 := by
  decide

/-- C6 (amended): in the claim's scenario — table of at least two steps with
cpu thresholds and duty table sorted ascending, `previous_duty =
duty_table[1]`, `cpu_temp = steps[1].cpu_threshold - 1`, any disk
temperature — the result is `duty_table[0]`, not `duty_table[1]`: step 0's
guard already fires (with hysteresis 2, since `duty_table[1] ≥
duty_table[0]`, and `cpu_threshold[1] - 1 > cpu_threshold[0] - 2`), so the
scan never reaches step 1. -/
theorem decideDuty_scenario_returns_head (s0 s1 : PWMFan.FanStep)
    (srest : List PWMFan.FanStep) (d0 d1 : Int) (drest : List Int) (disk : Int)
    (hc : (PWMFan.cpuTemperatures (s0 :: s1 :: srest)).Sorted (· ≤ ·))
    (hduty : (d0 :: d1 :: drest).Sorted (· ≤ ·))
    (h0 : 0 ≤ d0) :
    PWMFan.decideDuty (s1.cpu - 1) disk d1 (s0 :: s1 :: srest) (d0 :: d1 :: drest) = d0 := by
  have hcc : s0.cpu ≤ s1.cpu := by
    have hc' : List.Pairwise (fun a b : PWMFan.FanStep => a.cpu ≤ b.cpu) (s0 :: s1 :: srest) :=
      List.pairwise_map.mp hc
    exact (List.pairwise_cons.mp hc').1 s1 (List.mem_cons_self s1 srest)
  have hdd : d0 ≤ d1 := (List.sorted_cons.mp hduty).1 d1 (List.mem_cons_self d1 drest)
  have hhy : PWMFan.hysteresis d1 d0 = 2 := by
    simp [PWMFan.hysteresis, hdd]
  have hm : PWMFan.rowMatches (s1.cpu - 1) disk d1 (s0, d0) = true := by
    simp only [PWMFan.rowMatches, PWMFan.stepMatches, hhy, Bool.or_eq_true, decide_eq_true_eq]
    omega
  by_cases hd1 : d1 = 0
  · have hd0 : d0 = 0 := by omega
    subst hd1
    subst hd0
    simp [PWMFan.decideDuty, PWMFan.scanAux, hm]
  · simp [PWMFan.decideDuty, PWMFan.scanAux, hm, hd1]

theorem decideDuty_scenario_returns_head_witness :
    PWMFan.decideDuty (55 - 1) 0 20000
        [⟨40, 35, 0⟩, ⟨55, 45, 50⟩, ⟨70, 55, 100⟩] [0, 20000, 40000] = 0 :=
  decideDuty_scenario_returns_head ⟨40, 35, 0⟩ ⟨55, 45, 50⟩ [⟨70, 55, 100⟩]
    0 20000 [40000] 0 (by decide) (by decide) (by decide)

/-- C7 (counterexample): an iteration whose fan-curve result equals the duty
read from the actuator at its start still writes to the `duty_cycle`
attribute: with the empty step table the result is 0 and the current duty is
0, yet the iteration's write list is non-empty — the assignment
`self._pwmchip_duty_cycle = duty` is unconditional. -/
theorem monitorStep_unconditional_write_cex :
    PWMFan.decideDuty 30 30 0 [] (PWMFan.dutyCycles 40000 []) =
        (⟨40000, 0, true, PWMFan.Polarity.normal⟩ : PWMFan.PwmState).duty_cycle ∧
      (PWMFan.monitorStep 40000 [] 30 30 ⟨40000, 0, true, PWMFan.Polarity.normal⟩).2 ≠ [] := by
  decide

/-- C7 (amended): every iteration writes the fan-curve result to the
`duty_cycle` attribute exactly once, unconditionally; the new state's
`duty_cycle` field equals that result, and when the result equals the duty
read at the start of the iteration the written value is the old one, so the
PWM state is left unchanged. -/
theorem monitorStep_write_spec (period : Int) (S : List PWMFan.FanStep) (c d : Int)
    (s : PWMFan.PwmState) :
    (PWMFan.monitorStep period S c d s).2 =
        [PWMFan.decideDuty c d s.duty_cycle S (PWMFan.dutyCycles period S)] ∧
      (PWMFan.monitorStep period S c d s).1.duty_cycle =
        PWMFan.decideDuty c d s.duty_cycle S (PWMFan.dutyCycles period S) ∧
      (PWMFan.decideDuty c d s.duty_cycle S (PWMFan.dutyCycles period S) = s.duty_cycle →
        (PWMFan.monitorStep period S c d s).1 = s) := by
  refine ⟨rfl, rfl, fun h => ?_⟩
  cases s with
  | mk per duty en pol =>
      simp only [PWMFan.monitorStep] at h ⊢
      simp [PWMFan.PwmState.mk.injEq, h]

theorem monitorStep_write_spec_witness :
    (PWMFan.monitorStep 40000 [] 30 30 ⟨40000, 0, true, PWMFan.Polarity.normal⟩).1 =
      ⟨40000, 0, true, PWMFan.Polarity.normal⟩ :=
  (monitorStep_write_spec 40000 [] 30 30 ⟨40000, 0, true, PWMFan.Polarity.normal⟩).2.2
    (by decide)

theorem cpuTemperature_cons (t : Int) (rest : List Int) :
    PWMFan.cpuTemperature (t :: rest) = rest.foldl max t := by
  cases rest <;> rfl

theorem diskTemperature_cons (t : Int) (rest : List Int) :
    PWMFan.diskTemperature (t :: rest) = rest.foldl max t := by
  cases rest <;> rfl

/-- C8: as a function of the list of collected integer readings, each
temperature provider returns the maximum element of a non-empty list, and
returns 0 — not an error — for the empty list (no sensors / empty device
set).  Both the CPU and the disk variant behave this way. -/
theorem temperature_provider_max_spec (readings : List Int) :
    (readings = [] → PWMFan.cpuTemperature readings = 0 ∧ PWMFan.diskTemperature readings = 0) ∧
    (readings ≠ [] →
      (PWMFan.cpuTemperature readings ∈ readings ∧
        ∀ y ∈ readings, y ≤ PWMFan.cpuTemperature readings) ∧
      (PWMFan.diskTemperature readings ∈ readings ∧
        ∀ y ∈ readings, y ≤ PWMFan.diskTemperature readings)) := by
  constructor
  · rintro rfl
    exact ⟨rfl, rfl⟩
  · intro hne
    cases readings with
    | nil => exact absurd rfl hne
    | cons t rest =>
        rw [cpuTemperature_cons, diskTemperature_cons]
        obtain ⟨h1, h2⟩ := le_foldl_max rest t
        have hm := foldl_max_mem rest t
        have hle : ∀ y ∈ t :: rest, y ≤ rest.foldl max t := by
          intro y hy
          rcases List.mem_cons.mp hy with rfl | hy
          · exact h1
          · exact h2 y hy
        exact ⟨⟨hm, hle⟩, hm, hle⟩

theorem temperature_provider_max_spec_witness :
    (PWMFan.cpuTemperature [45, 52, 47] ∈ ([45, 52, 47] : List Int) ∧
      ∀ y ∈ ([45, 52, 47] : List Int), y ≤ PWMFan.cpuTemperature [45, 52, 47]) ∧
    (PWMFan.diskTemperature [45, 52, 47] ∈ ([45, 52, 47] : List Int) ∧
      ∀ y ∈ ([45, 52, 47] : List Int), y ≤ PWMFan.diskTemperature [45, 52, 47]) :=
  (temperature_provider_max_spec [45, 52, 47]).2 (by decide)

/-- C9: the derived duty table has one entry per step, in step order, and
entry `i` equals `pwm_period * speed_i / 100` truncated toward zero
(`Int.tdiv`, Python `int()` of the quotient); when `pwm_period * speed_i` is
divisible by 100 the entry is exact. -/
theorem dutyCycles_formula_spec (period : Int) (S : List PWMFan.FanStep) :
    (PWMFan.dutyCycles period S).length = S.length ∧
    ∀ i, i < S.length →
      (PWMFan.dutyCycles period S).getD i 0 =
          (period * (S.getD i ⟨0, 0, 0⟩).speed).tdiv 100 ∧
      ((100 : Int) ∣ period * (S.getD i ⟨0, 0, 0⟩).speed →
        (PWMFan.dutyCycles period S).getD i 0 * 100 =
          period * (S.getD i ⟨0, 0, 0⟩).speed) := by
  refine ⟨by simp [PWMFan.dutyCycles], fun i hi => ?_⟩
  have hg := dutyCycles_getD period S i hi
  refine ⟨hg, fun hdvd => ?_⟩
  rw [hg]
  exact Int.tdiv_mul_cancel hdvd

theorem dutyCycles_formula_spec_witness :
    (PWMFan.dutyCycles 40000 [⟨40, 35, 50⟩]).getD 0 0 * 100 = 40000 * 50 :=
  ((dutyCycles_formula_spec 40000 [⟨40, 35, 50⟩]).2 0 (by decide)).2 (by decide)

/-- C10: every duty value committed to the actuator by the loop — over any
step table, any initial PWM state and any sequence of temperature samples —
is either 0 or an element of the derived duty table. -/
theorem monitorRun_duty_invariant (period : Int) (S : List PWMFan.FanStep)
    (temps : List (Int × Int)) (s : PWMFan.PwmState) :
    ∀ w ∈ (PWMFan.monitorRun period S temps s).2,
      w = 0 ∨ w ∈ PWMFan.dutyCycles period S := by
  induction temps generalizing s with
  | nil =>
      intro w hw
      simp [PWMFan.monitorRun] at hw
  | cons t rest ih =>
      intro w hw
      simp only [PWMFan.monitorRun, List.mem_append] at hw
      rcases hw with hw | hw
      · have hww : w = PWMFan.decideDuty t.1 t.2 s.duty_cycle S (PWMFan.dutyCycles period S) := by
          simpa [PWMFan.monitorStep] using hw
        rw [hww]
        exact decideDuty_mem_or_zero t.1 t.2 s.duty_cycle S (PWMFan.dutyCycles period S)
      · exact ih _ w hw

theorem monitorRun_duty_invariant_witness :
    (50 : Int) = 0 ∨ (50 : Int) ∈ PWMFan.dutyCycles 100 [⟨40, 40, 50⟩] :=
  monitorRun_duty_invariant 100 [⟨40, 40, 50⟩] [(41, 0)]
    ⟨100, 0, true, PWMFan.Polarity.normal⟩ 50 (by decide)

end PWMFan
